import Mathlib

/-!
Verification development for the object store and KVLM codec of
`libwyag.py` (a git-like content-addressable object database).

Byte strings (`bytes` in the source) are modelled as `List Nat`, one
entry per byte.  Python's `find`, slicing, indexing and `replace` are
modelled with their exact semantics (including `-1` results and
negative-index clamping) by `pyFind`, `pySlice`, `pyAt` and `pyReplace`.
Outcomes of fallible code are modelled by `PRes`: `ok` is a normal
return, `err` is a raised exception, and `spin` marks a computation
that ran out of fuel (the source's `kvlm_parse` contains a `while True`
loop and unbounded recursion, so fuel is needed; Python's recursion
limit of 1000 is modelled as a depth budget whose exhaustion raises
`recursionError`, exactly as CPython does).

The filesystem under the repository's gitdir is modelled by `FS`
(directories and files keyed by path segments relative to the gitdir).
zlib and SHA-1 are external libraries: compression is passed in as a
pair of functions `comp`/`decomp` assumed to round-trip, while SHA-1 is
implemented in full so that concrete addresses can be computed.
-/

set_option maxRecDepth 100000

/-- Error values raised by the modelled Python code.  A bare `assert`
raises `assertionError` (with no message and no data attached). -/
inductive PyErr : Type where
  | assertionError : PyErr
  | indexError : PyErr
  | typeError : PyErr
  | keyError : PyErr
  | valueError : PyErr
  | recursionError : PyErr
  | unicodeDecodeError : PyErr
  | exception : String → PyErr
deriving DecidableEq, Repr

/-- Result of running a piece of the modelled code: normal return,
raised exception, or out of fuel (`spin`, marking non-termination of
the source's unbounded loop when no fuel bound suffices). -/
inductive PRes (α : Type) : Type where
  | ok : α → PRes α
  | err : PyErr → PRes α
  | spin : PRes α
deriving DecidableEq, Repr

/-- Map over a successful result. -/
def presMap {α β : Type} (f : α → β) : PRes α → PRes β
  | .ok a => .ok (f a)
  | .err e => .err e
  | .spin => .spin

/-- ASCII bytes of a Lean string (all strings in the source are ASCII). -/
def strBytes (s : String) : List Nat := s.toList.map Char.toNat

/-- Index of the first occurrence of byte `c` in `s`, or `none`. -/
def findFrom (s : List Nat) (c : Nat) : Option Nat :=
  match s with
  | [] => none
  | a :: t => if a = c then some 0 else (findFrom t c).map (· + 1)

/-- Python `s.find(bytes([c]), i)`: first index `≥ i` holding byte `c`,
`-1` when absent; a negative `i` counts from the end, clamped at 0. -/
def pyFind (s : List Nat) (c : Nat) (i : Int) : Int :=
  let st : Nat := if i < 0 then (s.length + i).toNat else i.toNat
  match findFrom (s.drop st) c with
  | none => -1
  | some k => ((st + k : Nat) : Int)

/-- Python `s[i]`: negative indices count from the end, out-of-range is
`none` (an `IndexError` at the call site). -/
def pyAt (s : List Nat) (i : Int) : Option Nat :=
  let j : Int := if i < 0 then s.length + i else i
  if j < 0 then none else s.get? j.toNat

/-- Python slice `s[i:j]` (step 1): negative bounds count from the end,
everything is clamped into `[0, len]`. -/
def pySlice (s : List Nat) (i j : Int) : List Nat :=
  let n := s.length
  let a : Nat := if i < 0 then (n + i).toNat else min i.toNat n
  let b : Nat := if j < 0 then (n + j).toNat else min j.toNat n
  (s.take b).drop a

/-- Does `pre` occur at the head of `s`? -/
def bytesStart (pre s : List Nat) : Bool :=
  match pre, s with
  | [], _ => true
  | _ :: _, [] => false
  | a :: p, b :: t => a = b && bytesStart p t

/-- Fueled body of `pyReplace`; each step strictly shortens `s`, so
fuel `s.length + 1` always suffices (structural recursion on the fuel
keeps the definition kernel-reducible). -/
def pyReplaceF : Nat → List Nat → List Nat → List Nat → List Nat
  | 0, s, _, _ => s
  | fuel + 1, s, old, new =>
    match s with
    | [] => []
    | a :: t =>
      if old ≠ [] ∧ bytesStart old (a :: t) then
        new ++ pyReplaceF fuel ((a :: t).drop old.length) old new
      else
        a :: pyReplaceF fuel t old new

/-- Python `s.replace(old, new)`: leftmost, non-overlapping.  All call
sites pass a non-empty `old`; for `old = []` this copies `s` (Python
would interleave `new`, a case the source never exercises). -/
def pyReplace (s old new : List Nat) : List Nat :=
  pyReplaceF (s.length + 1) s old new

/-- A value of one header key: a single byte string, or a list of them
once the key repeats (the source stores `bytes` or `list`). -/
inductive KvlmVal : Type where
  | one : List Nat → KvlmVal
  | many : List (List Nat) → KvlmVal
deriving DecidableEq, Repr

/-- The `collections.OrderedDict` built by `kvlm_parse`: insertion-ordered
pairs of key (`none` is Python's `None`, the message sentinel) and value.
Keys are unique, as in a dict. -/
abbrev Doc := List (Option (List Nat) × KvlmVal)

/-- Dict lookup `k in dct` / `dct[k]`. -/
def dctGet (dct : Doc) (k : Option (List Nat)) : Option KvlmVal :=
  match dct with
  | [] => none
  | (k', v) :: t => if k' = k then some v else dctGet t k

/-- Dict assignment `dct[k] = v`: update in place (keeping the key's
original position, as `OrderedDict` does) or append a new key. -/
def dctSet (dct : Doc) (k : Option (List Nat)) (v : KvlmVal) : Doc :=
  match dct with
  | [] => [(k, v)]
  | (k', v') :: t => if k' = k then (k, v) :: t else (k', v') :: dctSet t k v

/-- The `while True` scan of `kvlm_parse` locating the end of a field's
value: `end = raw.find(b'\n', end+1)`, breaking when the byte after the
found newline is not a space (`raw[end+1]` raises `IndexError` past the
end; `end = -1` wraps to `raw[0]`).  One unit of fuel per iteration;
the loop can genuinely run forever, hence `spin`. -/
def find_value_end (raw : List Nat) : Nat → Int → PRes Int
  | 0, _ => .spin
  | fuel + 1, e =>
    let e2 := pyFind raw 10 (e + 1)
    match pyAt raw (e2 + 1) with
    | none => .err .indexError
    | some c => if c ≠ 32 then .ok e2 else find_value_end raw fuel e2

/-- The recursive body of `kvlm_parse(raw, start, dct)`.  `lf` is the
fuel given to each inner `while True` scan; `depth` models Python's
recursion limit (hitting 0 raises `RecursionError`, as CPython does on
the source's unbounded self-recursion). -/
def kvlm_parse_rec (raw : List Nat) (lf : Nat) : Nat → Nat → Doc → PRes Doc
  | 0, _, _ => .err .recursionError
  | depth + 1, start, dct =>
    let spc := pyFind raw 32 (start : Int)
    let nl := pyFind raw 10 (start : Int)
    if spc < 0 ∨ nl < spc then
      -- base case: `assert nl == start`, then the message is the rest
      if nl = (start : Int) then
        .ok (dctSet dct none (.one (pySlice raw ((start : Int) + 1) raw.length)))
      else .err .assertionError
    else
      let key := pySlice raw (start : Int) spc
      match find_value_end raw lf (start : Int) with
      | .spin => .spin
      | .err e => .err e
      | .ok endv =>
        let value := pyReplace (pySlice raw (spc + 1) endv) [10, 32] [10]
        let dct' :=
          match dctGet dct (some key) with
          | some (.many vs) => dctSet dct (some key) (.many (vs ++ [value]))
          | some (.one v0) => dctSet dct (some key) (.many [v0, value])
          | none => dctSet dct (some key) (.one value)
        kvlm_parse_rec raw lf depth (endv + 1).toNat dct'

/-- Model of `kvlm_parse(raw)` with the default arguments (`start=0`, fresh
`OrderedDict`).  Loop fuel `raw.length + 2` is enough for every
terminating scan (a scan visits strictly increasing newline positions,
plus at most one wrap through `-1`); the depth budget is Python's
default recursion limit. -/
def kvlm_parse (raw : List Nat) : PRes Doc :=
  kvlm_parse_rec raw (raw.length + 2) 1000 0 []

/-- One serialized header line `k + b' ' + v.replace(b'\n', b'\n ') + b'\n'`. -/
def kvlmLine (k v : List Nat) : List Nat :=
  k ++ [32] ++ pyReplace v [10] [10, 32] ++ [10]

/-- Model of `kvlm_serialize(kvlm)`: header fields in insertion order (skipping
the `None` message key, normalizing a single value to a one-element
list), then `b'\n' + kvlm[None] + b'\n'`.  A missing message key raises
`KeyError`; a list-valued message would raise `TypeError` on `+`. -/
def kvlm_serialize (kvlm : Doc) : PRes (List Nat) :=
  let fields := kvlm.foldl (fun acc p =>
    match p with
    | (none, _) => acc
    | (some k, .one v) => acc ++ kvlmLine k v
    | (some k, .many vs) => acc ++ vs.foldl (fun a v => a ++ kvlmLine k v) []) []
  match dctGet kvlm none with
  | some (.one m) => .ok (fields ++ [10] ++ m ++ [10])
  | some (.many _) => .err .typeError
  | none => .err .keyError

/-! ### SHA-1 (hashlib.sha1) -/

/-- Rotate a 32-bit word left by `n` bits. -/
def rotl32 (n x : Nat) : Nat :=
  ((x <<< n) % 4294967296) ||| (x >>> (32 - n))

/-- Big-endian 4-byte encoding of a 32-bit word. -/
def be32 (x : Nat) : List Nat :=
  [(x >>> 24) % 256, (x >>> 16) % 256, (x >>> 8) % 256, x % 256]

/-- Big-endian 8-byte encoding of a 64-bit length. -/
def be64 (x : Nat) : List Nat :=
  [(x >>> 56) % 256, (x >>> 48) % 256, (x >>> 40) % 256, (x >>> 32) % 256,
   (x >>> 24) % 256, (x >>> 16) % 256, (x >>> 8) % 256, x % 256]

/-- SHA-1 padding: `0x80`, zeros to 56 mod 64, then the bit length. -/
def sha1Pad (m : List Nat) : List Nat :=
  m ++ [128] ++ List.replicate ((119 - m.length % 64) % 64) 0 ++ be64 (8 * m.length)

/-- The 16 big-endian words of one 64-byte block. -/
def sha1Words (block : List Nat) : List Nat :=
  (List.range 16).map (fun i =>
    block.getD (4 * i) 0 * 16777216 + block.getD (4 * i + 1) 0 * 65536 +
    block.getD (4 * i + 2) 0 * 256 + block.getD (4 * i + 3) 0)

/-- The 80-word message schedule. -/
def sha1Schedule (block : List Nat) : List Nat :=
  (List.range 64).foldl (fun ws i =>
    ws ++ [rotl32 1 (ws.getD (i + 13) 0 ^^^ ws.getD (i + 8) 0 ^^^
                     ws.getD (i + 2) 0 ^^^ ws.getD i 0)]) (sha1Words block)

/-- One SHA-1 round. -/
def sha1Round (w : List Nat) (st : Nat × Nat × Nat × Nat × Nat) (t : Nat) :
    Nat × Nat × Nat × Nat × Nat :=
  match st with
  | (a, b, c, d, e) =>
    let f : Nat :=
      if t < 20 then (b &&& c) ||| ((4294967295 - b) &&& d)
      else if t < 40 then b ^^^ c ^^^ d
      else if t < 60 then (b &&& c) ||| (b &&& d) ||| (c &&& d)
      else b ^^^ c ^^^ d
    let k : Nat :=
      if t < 20 then 1518500249
      else if t < 40 then 1859775393
      else if t < 60 then 2400959708
      else 3395469782
    let temp := (rotl32 5 a + f + e + k + w.getD t 0) % 4294967296
    (temp, a, rotl32 30 b, c, d)

/-- Compress one 64-byte block into the running state. -/
def sha1Compress (h : Nat × Nat × Nat × Nat × Nat) (block : List Nat) :
    Nat × Nat × Nat × Nat × Nat :=
  match h with
  | (h0, h1, h2, h3, h4) =>
    let w := sha1Schedule block
    match (List.range 80).foldl (sha1Round w) (h0, h1, h2, h3, h4) with
    | (a, b, c, d, e) =>
      ((h0 + a) % 4294967296, (h1 + b) % 4294967296, (h2 + c) % 4294967296,
       (h3 + d) % 4294967296, (h4 + e) % 4294967296)

/-- Fold the compression function over all 64-byte blocks (fueled so
that the definition stays kernel-reducible; each step consumes 64
bytes, so fuel `rest.length + 1` always suffices). -/
def sha1Blocks : Nat → Nat × Nat × Nat × Nat × Nat → List Nat →
    Nat × Nat × Nat × Nat × Nat
  | 0, h, _ => h
  | fuel + 1, h, rest =>
    if rest = [] then h
    else sha1Blocks fuel (sha1Compress h (rest.take 64)) (rest.drop 64)

/-- The 20-byte SHA-1 digest of a byte string. -/
def sha1 (m : List Nat) : List Nat :=
  match sha1Blocks ((sha1Pad m).length + 1)
      (1732584193, 4023233417, 2562383102, 271733878, 3285377520) (sha1Pad m) with
  | (h0, h1, h2, h3, h4) => be32 h0 ++ be32 h1 ++ be32 h2 ++ be32 h3 ++ be32 h4

/-- The sixteen lowercase hex digits. -/
def hexChars : List Char := "0123456789abcdef".toList

/-- Hex digit `i` (lowercase). -/
def hexChar (i : Nat) : Char := hexChars.getD i '0'

/-- Model of hashlib's `.hexdigest()`: lowercase hex of the digest bytes. -/
def hexdigest (bs : List Nat) : String :=
  String.mk (bs.foldr (fun b acc => hexChar (b / 16 % 16) :: hexChar (b % 16) :: acc) [])

/-! ### Objects, the filesystem and the object store -/

/-- The in-memory object records.  The source defines `GitBlob`
(opaque payload) and `GitCommit` (KVLM payload).  `tree` and `tag` are
referenced by `object_read`/`object_hash` but their classes are absent
from the source.  Modelled from the spec: `Tree` is an opaque payload
"identical to Blob's" (§4.3, §9) and `Tag`'s payload "is a KVLM
document" (§4.3). -/
inductive GitObj : Type where
  | blob : List Nat → GitObj
  | commit : Doc → GitObj
  | tree : List Nat → GitObj
  | tag : Doc → GitObj
deriving DecidableEq, Repr

/-- The `fmt` class attribute: the object's ASCII type tag. -/
def obj_fmt : GitObj → List Nat
  | .blob _ => strBytes "blob"
  | .commit _ => strBytes "commit"
  | .tree _ => strBytes "tree"
  | .tag _ => strBytes "tag"

/-- Model of `obj.serialize()`: the blob returns its data; a commit (and,
modelled from the spec, a tag) runs `kvlm_serialize`; a tree is opaque
like a blob (modelled from the spec). -/
def obj_serialize : GitObj → PRes (List Nat)
  | .blob d => .ok d
  | .commit kvlm => kvlm_serialize kvlm
  | .tree d => .ok d
  | .tag kvlm => kvlm_serialize kvlm

/-- The filesystem under the repository's gitdir: a set of existing
directories and a list of files with contents, both keyed by their
path segments relative to the gitdir (the constant gitdir prefix of
every `repo_path` is dropped). -/
structure FS : Type where
  dirs : List (List String)
  files : List (List String × List Nat)
deriving DecidableEq, Repr

/-- Model of `os.path.isdir` relative to the gitdir. -/
def fsIsDir (fs : FS) (p : List String) : Prop := p ∈ fs.dirs

/-- Model of `os.path.isfile` relative to the gitdir. -/
def fsIsFile (fs : FS) (p : List String) : Prop := p ∈ fs.files.map Prod.fst

/-- Model of `os.path.exists` relative to the gitdir. -/
def fsExists (fs : FS) (p : List String) : Prop := fsIsDir fs p ∨ fsIsFile fs p

instance (fs : FS) (p : List String) : Decidable (fsIsDir fs p) := by
  unfold fsIsDir; infer_instance

instance (fs : FS) (p : List String) : Decidable (fsIsFile fs p) := by
  unfold fsIsFile; infer_instance

instance (fs : FS) (p : List String) : Decidable (fsExists fs p) := by
  unfold fsExists; infer_instance

/-- First association of `p` in a file list. -/
def lookupFile (files : List (List String × List Nat)) (p : List String) :
    Option (List Nat) :=
  match files with
  | [] => none
  | (q, c) :: t => if q = p then some c else lookupFile t p

/-- Contents of the file at `p`, if one exists. -/
def fsLookup (fs : FS) (p : List String) : Option (List Nat) :=
  lookupFile fs.files p

/-- All non-empty leading segments of a path, shortest first. -/
def pathAncestors : List String → List (List String)
  | [] => []
  | a :: t => [a] :: (pathAncestors t).map (a :: ·)

/-- Model of `os.makedirs(p)`: create `p` and every missing intermediate. -/
def fsMakedirs (fs : FS) (p : List String) : FS :=
  { fs with dirs := fs.dirs ++ (pathAncestors p).filter (fun q => ¬ q ∈ fs.dirs) }

/-- Model of `repo_dir(repo, *path, mkdir)`: return the directory path if it
exists, raise if something non-directory sits there, create it when
`mkdir`, else return `None`. -/
def repo_dir (fs : FS) (p : List String) (mkdir : Bool) :
    PRes (Option (List String) × FS) :=
  if fsExists fs p then
    if fsIsDir fs p then .ok (some p, fs)
    else .err (.exception ("Not a directory " ++ String.intercalate "/" p))
  else if mkdir then .ok (some p, fsMakedirs fs p)
  else .ok (none, fs)

/-- Model of `repo_file(repo, *path, mkdir)`: ensure the parent directory, then
return the full path (or `None` — Python falls off the end). -/
def repo_file (fs : FS) (p : List String) (mkdir : Bool) :
    PRes (Option (List String) × FS) :=
  match repo_dir fs p.dropLast mkdir with
  | .ok (some _, fs') => .ok (some p, fs')
  | .ok (none, fs') => .ok (none, fs')
  | .err e => .err e
  | .spin => .spin

/-- The storage path of an address: `objects/<first 2 hex>/<rest>`. -/
def objectPath (sha : String) : List String :=
  ["objects", String.mk (sha.toList.take 2), String.mk (sha.toList.drop 2)]

/-- Python whitespace bytes recognized by `int()`. -/
def isWsByte (b : Nat) : Bool :=
  b = 32 || b = 9 || b = 10 || b = 11 || b = 12 || b = 13

/-- Strip leading and trailing whitespace. -/
def stripWs (bs : List Nat) : List Nat :=
  ((bs.dropWhile isWsByte).reverse.dropWhile isWsByte).reverse

/-- Is `b` an ASCII digit? -/
def isDigitByte (b : Nat) : Bool := 48 ≤ b && b ≤ 57

/-- Decimal value of a digit string. -/
def digitsVal (ds : List Nat) : Nat :=
  ds.foldl (fun a d => a * 10 + (d - 48)) 0

/-- Model of `int(bs.decode("ascii"))`: decoding fails on non-ASCII bytes;
`int()` strips whitespace, takes an optional sign, then decimal digits
(underscore grouping, unused by the source, is not modelled). -/
def pyInt (bs : List Nat) : PRes Int :=
  if ¬ bs.all (· < 128) then .err .unicodeDecodeError
  else
    let t := stripWs bs
    let sd : Int × List Nat :=
      match t with
      | [] => (1, [])
      | c :: r => if c = 43 then (1, r) else if c = 45 then (-1, r) else (1, c :: r)
    if ¬ sd.2.isEmpty ∧ sd.2.all isDigitByte then .ok (sd.1 * digitsVal sd.2)
    else .err .valueError

/-- Model of `bs.decode("ascii")`. -/
def decodeAscii (bs : List Nat) : PRes String :=
  if bs.all (· < 128) then .ok (String.mk (bs.map Char.ofNat))
  else .err .unicodeDecodeError

/-- Fueled body of `natDecimal`; `n / 10 < n` for `n ≥ 10`, so fuel
`n + 1` always suffices (structural recursion on the fuel keeps the
definition kernel-reducible). -/
def natDecimalF : Nat → Nat → List Nat
  | 0, n => [48 + n]
  | fuel + 1, n =>
    if n < 10 then [48 + n] else natDecimalF fuel (n / 10) ++ [48 + n % 10]

/-- The decimal ASCII bytes of a natural number (`str(n).encode()`). -/
def natDecimal (n : Nat) : List Nat := natDecimalF n n

/-- The canonical frame `fmt + b' ' + str(len(data)).encode() + b'\x00' + data`
built by `object_write`. -/
def objFrame (obj : GitObj) (data : List Nat) : List Nat :=
  obj_fmt obj ++ [32] ++ natDecimal data.length ++ [0] ++ data

/-- Model of `object_write(obj, repo)`: serialize, frame, hash; when a repo is
given, ensure the object directory and persist the compressed frame
only if nothing exists at the derived path.  `comp` is zlib.compress.
Returns the address together with the (possibly updated) filesystem. -/
def object_write (comp : List Nat → List Nat) (obj : GitObj) (repo : Option FS) :
    PRes (String × Option FS) :=
  match obj_serialize obj with
  | .err e => .err e
  | .spin => .spin
  | .ok data =>
    let result := objFrame obj data
    let sha := hexdigest (sha1 result)
    match repo with
    | none => .ok (sha, none)
    | some fs =>
      match repo_file fs (objectPath sha) true with
      | .err e => .err e
      | .spin => .spin
      | .ok (none, _) => .err .typeError -- os.path.exists(None); unreachable with mkdir
      | .ok (some p, fs') =>
        if fsExists fs' p then .ok (sha, some fs')
        else .ok (sha, some { fs' with files := fs'.files ++ [(p, comp result)] })

/-- Model of `object_read(repo, sha)`: locate `objects/sha[0:2]/sha[2:]`
(`os.path.isfile(None)` raises `TypeError` when even the directory is
missing), return `None` when the file is absent, else decompress,
split the frame at the first space and first NUL, check the declared
length, and dispatch on the type tag.  `decomp` is zlib.decompress. -/
def object_read (decomp : List Nat → List Nat) (fs : FS) (sha : String) :
    PRes (Option GitObj) :=
  match repo_file fs (objectPath sha) false with
  | .err e => .err e
  | .spin => .spin
  | .ok (none, _) => .err .typeError
  | .ok (some p, _) =>
    if ¬ fsIsFile fs p then .ok none
    else
      let raw := decomp ((fsLookup fs p).getD [])
      let x := pyFind raw 32 0
      let fmt := pySlice raw 0 x
      let y := pyFind raw 0 x
      match pyInt (pySlice raw x y) with
      | .err e => .err e
      | .spin => .spin
      | .ok size =>
        if size ≠ (raw.length : Int) - y - 1 then
          .err (.exception ("Malformed object " ++ sha ++ ": bad length"))
        else if fmt = strBytes "commit" then
          presMap (fun k => some (GitObj.commit k))
            (kvlm_parse (pySlice raw (y + 1) raw.length))
        else if fmt = strBytes "tree" then
          .ok (some (GitObj.tree (pySlice raw (y + 1) raw.length)))
        else if fmt = strBytes "tag" then
          presMap (fun k => some (GitObj.tag k))
            (kvlm_parse (pySlice raw (y + 1) raw.length))
        else if fmt = strBytes "blob" then
          .ok (some (GitObj.blob (pySlice raw (y + 1) raw.length)))
        else
          match decodeAscii fmt with
          | .ok s => .err (.exception ("Unknown type " ++ s ++ " for object " ++ sha))
          | .err e => .err e
          | .spin => .spin

/-- Model of `object_hash(fd, fmt, repo)`: construct the variant from the raw
data (running `kvlm_parse` for commit and, modelled from the spec,
tag) and write it. -/
def object_hash (fmt data : List Nat) (comp : List Nat → List Nat)
    (repo : Option FS) : PRes (String × Option FS) :=
  if fmt = strBytes "commit" then
    match kvlm_parse data with
    | .ok kvlm => object_write comp (.commit kvlm) repo
    | .err e => .err e
    | .spin => .spin
  else if fmt = strBytes "tree" then object_write comp (.tree data) repo
  else if fmt = strBytes "tag" then
    match kvlm_parse data with
    | .ok kvlm => object_write comp (.tag kvlm) repo
    | .err e => .err e
    | .spin => .spin
  else if fmt = strBytes "blob" then object_write comp (.blob data) repo
  else .err (.exception "Unknown type")

/-- Proposition that `kvlm_parse` diverges on `raw`: for every loop-fuel budget and
every positive recursion budget the run exhausts its loop fuel — the
source's `while True` scan never breaks. -/
def KvlmDivergesOn (raw : List Nat) : Prop :=
  ∀ lf depth, kvlm_parse_rec raw lf (depth + 1) 0 [] = .spin

/-! ## Theorems -/

/-- C4: writing a Blob whose payload is `b"hello world\n"` builds the
frame `b"blob 12\x00hello world\n"` and returns the address
`3b18e512dba79e4c8300dd08aeb37f8e728b8dad` (with `repo=None`, so no
filesystem is touched). -/
theorem blob_hello_world_frame_and_address :
    objFrame (GitObj.blob (strBytes "hello world\n")) (strBytes "hello world\n") =
      strBytes "blob 12\x00hello world\n" ∧
    object_write id (GitObj.blob (strBytes "hello world\n")) none =
      .ok ("3b18e512dba79e4c8300dd08aeb37f8e728b8dad", none) := by
  constructor
  · decide
  · decide

/-- C1: `kvlm_serialize` appends `b'\n'` after the message, while
`kvlm_parse` keeps the message's trailing newline; hence for the
parser-produced document of `b"a b\n\nm\n"`, `parse(serialize(d))` is
not `d`: the message value gains one newline.  Round-trip byte-identity
(the spec's defining property of the codec) fails on every
parser-produced document, so this is a defect of the code. -/
theorem kvlm_roundtrip_message_gains_newline :
    kvlm_parse (strBytes "a b\n\nm\n") =
      .ok [(some (strBytes "a"), .one (strBytes "b")),
           (none, .one (strBytes "m\n"))] ∧
    kvlm_serialize [(some (strBytes "a"), .one (strBytes "b")),
                    (none, .one (strBytes "m\n"))] =
      .ok (strBytes "a b\n\nm\n" ++ [10]) ∧
    kvlm_parse (strBytes "a b\n\nm\n" ++ [10]) =
      .ok [(some (strBytes "a"), .one (strBytes "b")),
           (none, .one (strBytes "m\n\n"))] ∧
    ([(some (strBytes "a"), .one (strBytes "b")), (none, .one (strBytes "m\n\n"))] : Doc) ≠
      ([(some (strBytes "a"), .one (strBytes "b")), (none, .one (strBytes "m\n"))] : Doc) := by
  refine ⟨by decide, by decide, by decide, by decide⟩

/-- C2: parsing the concrete commit text yields keys `tree`, `author`,
`committer` in insertion order, each a single value, with message
`b"Initial commit\n"` — but re-serializing the parsed document yields
the input plus one extra trailing newline, not the exact input bytes
(the serializer's trailing `b'\n'` defect). -/
theorem commit_scenario_parse_and_reserialize :
    kvlm_parse (strBytes ("tree 29ff16c9c14e2652b22f8b78bb08a5a07930c147\n" ++
        "author A U Thor <author@example.com> 1 +0000\n" ++
        "committer A U Thor <author@example.com> 1 +0000\n\nInitial commit\n")) =
      .ok [(some (strBytes "tree"),
              .one (strBytes "29ff16c9c14e2652b22f8b78bb08a5a07930c147")),
           (some (strBytes "author"),
              .one (strBytes "A U Thor <author@example.com> 1 +0000")),
           (some (strBytes "committer"),
              .one (strBytes "A U Thor <author@example.com> 1 +0000")),
           (none, .one (strBytes "Initial commit\n"))] ∧
    kvlm_serialize [(some (strBytes "tree"),
              .one (strBytes "29ff16c9c14e2652b22f8b78bb08a5a07930c147")),
           (some (strBytes "author"),
              .one (strBytes "A U Thor <author@example.com> 1 +0000")),
           (some (strBytes "committer"),
              .one (strBytes "A U Thor <author@example.com> 1 +0000")),
           (none, .one (strBytes "Initial commit\n"))] =
      .ok (strBytes ("tree 29ff16c9c14e2652b22f8b78bb08a5a07930c147\n" ++
        "author A U Thor <author@example.com> 1 +0000\n" ++
        "committer A U Thor <author@example.com> 1 +0000\n\nInitial commit\n") ++ [10]) ∧
    strBytes ("tree 29ff16c9c14e2652b22f8b78bb08a5a07930c147\n" ++
        "author A U Thor <author@example.com> 1 +0000\n" ++
        "committer A U Thor <author@example.com> 1 +0000\n\nInitial commit\n") ++ [10] ≠
      strBytes ("tree 29ff16c9c14e2652b22f8b78bb08a5a07930c147\n" ++
        "author A U Thor <author@example.com> 1 +0000\n" ++
        "committer A U Thor <author@example.com> 1 +0000\n\nInitial commit\n") := by
  refine ⟨by decide, by decide, by decide⟩

/-- C5: the header value `b"first\nsecond"` under key `b"note"`
serializes to exactly the two lines `b"note first\n second\n"` (the
embedded newline becomes newline+space), and parsing a document
containing those two lines recovers the value `b"first\nsecond"`
unchanged. -/
theorem continuation_folding_note_roundtrip :
    kvlm_serialize [(some (strBytes "note"), .one (strBytes "first\nsecond")),
                    (none, .one (strBytes "m"))] =
      .ok (strBytes "note first\n second\n" ++ [10] ++ strBytes "m" ++ [10]) ∧
    kvlm_parse (strBytes "note first\n second\n" ++ [10] ++ strBytes "m") =
      .ok [(some (strBytes "note"), .one (strBytes "first\nsecond")),
           (none, .one (strBytes "m"))] := by
  refine ⟨by decide, by decide⟩

/-- C3 (counterexample): for the commit tag the pipeline already fails
at construction: `object_hash` on payload `b"x"` runs `kvlm_parse`,
which raises (bare `assert`), so not every payload round-trips through
every type tag. -/
theorem object_hash_commit_fails_on_non_kvlm :
    object_hash (strBytes "commit") (strBytes "x") id none = .err .assertionError := by
  decide

/-- C7 (counterexample): on an empty store, the two-character prefix
directory of the address is missing, `repo_file` returns `None`, and
`os.path.isfile(None)` raises `TypeError` — the read does not produce
the not-found outcome (returning `None`) that the spec calls
`ObjectNotFound`. -/
theorem object_read_missing_dir_type_error :
    object_read id ⟨[], []⟩ "0000000000000000000000000000000000000000" =
      .err .typeError ∧
    object_read id ⟨[], []⟩ "0000000000000000000000000000000000000000" ≠
      .ok none := by
  refine ⟨by decide, by decide⟩

/-- C8 (counterexample): the boundary check is a bare `assert`, whose
error carries no data: the parse of `b"x"` fails at byte offset 0 and
the parse of `b"a b\nx"` fails at byte offset 4, yet both produce the
very same error value, so the error cannot report the byte offset at
which detection failed. -/
theorem kvlm_boundary_error_lacks_offset :
    kvlm_parse (strBytes "x") = .err .assertionError ∧
    kvlm_parse (strBytes "a b\nx") = .err .assertionError := by
  refine ⟨by decide, by decide⟩

/-- C9 (counterexample): on input `b" k v\n x"` the continuation scan
of `kvlm_parse` cycles forever between the newline at offset 4 and the
wrapped position `-1` (the find fails past the end, `raw[-1+1]` is the
leading space, and the scan restarts from offset 0), so the parse
exhausts every loop-fuel budget: the source's `while True` runs
forever. -/
theorem kvlm_parse_diverges_on_leading_space :
    KvlmDivergesOn (strBytes " k v\n x") ∧ kvlm_parse (strBytes " k v\n x") = .spin := by
  have cyc : ∀ f, find_value_end (strBytes " k v\n x") f 4 = .spin ∧
      find_value_end (strBytes " k v\n x") f (-1) = .spin := by
    intro f
    induction f with
    | zero => exact ⟨rfl, rfl⟩
    | succ f ih =>
      refine ⟨?_, ?_⟩
      · have h : find_value_end (strBytes " k v\n x") (f + 1) 4 =
            find_value_end (strBytes " k v\n x") f (-1) := rfl
        rw [h]; exact ih.2
      · have h : find_value_end (strBytes " k v\n x") (f + 1) (-1) =
            find_value_end (strBytes " k v\n x") f 4 := rfl
        rw [h]; exact ih.1
  have h0 : ∀ lf, find_value_end (strBytes " k v\n x") lf 0 = .spin := by
    intro lf
    cases lf with
    | zero => rfl
    | succ f =>
      have h : find_value_end (strBytes " k v\n x") (f + 1) 0 =
          find_value_end (strBytes " k v\n x") f 4 := rfl
      rw [h]; exact (cyc f).1
  have main : ∀ lf depth,
      kvlm_parse_rec (strBytes " k v\n x") lf (depth + 1) 0 [] = .spin := by
    intro lf depth
    unfold kvlm_parse_rec
    rw [if_neg (by decide)]
    simp only [Nat.cast_zero]
    rw [h0 lf]
  exact ⟨main, main _ _⟩

/-! ### Byte-level lemmas -/

theorem findFrom_append {c : Nat} {xs ys : List Nat} (h : c ∉ xs) :
    findFrom (xs ++ ys) c = (findFrom ys c).map (xs.length + ·) := by
  induction xs with
  | nil =>
    simp only [List.nil_append, List.length_nil]
    cases hy : findFrom ys c <;> simp [hy]
  | cons a t ih =>
    have ha : ¬ a = c := fun e => h (by simp [e])
    have ht : c ∉ t := fun hm => h (List.mem_cons_of_mem _ hm)
    show findFrom (a :: (t ++ ys)) c = _
    rw [findFrom, if_neg ha, ih ht]
    cases hy : findFrom ys c
    · simp [hy]
    · simp only [hy, Option.map_some', Option.map_map, List.length_cons,
        Option.some.injEq, Function.comp]
      omega

theorem findFrom_lt_length {s : List Nat} {c k : Nat} (h : findFrom s c = some k) :
    k < s.length := by
  induction s generalizing k with
  | nil => simp [findFrom] at h
  | cons a t ih =>
    simp only [findFrom] at h
    by_cases hac : a = c
    · rw [if_pos hac] at h
      cases h
      simp
    · rw [if_neg hac] at h
      cases hf : findFrom t c with
      | none => rw [hf] at h; simp at h
      | some m =>
        rw [hf] at h
        simp at h
        have := ih hf
        simp only [List.length_cons]
        omega

theorem pyFind_frame_space (tag rest : List Nat) (h : (32 : Nat) ∉ tag) :
    pyFind (tag ++ 32 :: rest) 32 0 = (tag.length : Int) := by
  unfold pyFind
  simp only [show ¬ ((0 : Int) < 0) from by omega, if_false, Int.toNat_zero,
    List.drop_zero]
  rw [findFrom_append h]
  simp [findFrom]

theorem pyFind_frame_nul (tag ds b : List Nat) (hds : (0 : Nat) ∉ ds) :
    pyFind (tag ++ 32 :: (ds ++ 0 :: b)) 0 (tag.length : Int) =
      ((tag.length + (ds.length + 1) : Nat) : Int) := by
  unfold pyFind
  simp only [show ¬ ((tag.length : Int) < 0) from by omega, if_false,
    Int.toNat_natCast]
  rw [List.drop_left]
  have h32 : (0 : Nat) ∉ (32 : Nat) :: ds := by
    intro hm
    rcases List.mem_cons.mp hm with h1 | h1
    · omega
    · exact hds h1
  rw [show (32 : Nat) :: (ds ++ 0 :: b) = ((32 : Nat) :: ds) ++ 0 :: b from rfl,
    findFrom_append h32]
  simp [findFrom]

theorem pySlice_at_zero (pre rest : List Nat) :
    pySlice (pre ++ rest) 0 (pre.length : Int) = pre := by
  unfold pySlice
  simp only [show ¬ ((0 : Int) < 0) from by omega,
    show ¬ ((pre.length : Int) < 0) from by omega, if_false, Int.toNat_zero,
    Int.toNat_natCast, List.length_append]
  rw [Nat.min_eq_left (by omega), Nat.min_eq_left (by omega)]
  simp [List.take_left]

theorem pySlice_mid (pre mid rest : List Nat) :
    pySlice (pre ++ mid ++ rest) (pre.length : Int)
      ((pre.length + mid.length : Nat) : Int) = mid := by
  unfold pySlice
  simp only [show ¬ ((pre.length : Int) < 0) from by omega,
    show ¬ (((pre.length + mid.length : Nat) : Int) < 0) from by omega, if_false,
    Int.toNat_natCast, List.length_append]
  rw [Nat.min_eq_left (by omega), Nat.min_eq_left (by omega)]
  rw [List.take_left' (by simp), List.drop_left]

theorem pySlice_to_length (pre rest : List Nat) :
    pySlice (pre ++ rest) ((pre.length : Nat) : Int) (((pre ++ rest).length : Nat) : Int) =
      rest := by
  unfold pySlice
  simp only [show ¬ ((pre.length : Int) < 0) from by omega,
    show ¬ (((pre ++ rest).length : Nat) : Int) < 0 from by omega, if_false,
    Int.toNat_natCast]
  rw [Nat.min_eq_left (by simp), Nat.min_self]
  rw [List.take_length, List.drop_left]

/-! ### Decimal encoding and `int()` lemmas -/

theorem digitsVal_append (xs : List Nat) (d : Nat) :
    digitsVal (xs ++ [d]) = digitsVal xs * 10 + (d - 48) := by
  unfold digitsVal
  rw [List.foldl_append]
  rfl

theorem natDecimalF_digitsVal : ∀ fuel n, n ≤ fuel →
    digitsVal (natDecimalF fuel n) = n := by
  intro fuel
  induction fuel with
  | zero =>
    intro n h
    have : n = 0 := by omega
    subst this
    rfl
  | succ f ih =>
    intro n h
    unfold natDecimalF
    by_cases h10 : n < 10
    · rw [if_pos h10]
      unfold digitsVal
      simp
    · rw [if_neg h10]
      have hlt : n / 10 < n := Nat.div_lt_self (by omega) (by omega)
      rw [digitsVal_append, ih (n / 10) (by omega)]
      omega

theorem natDecimalF_bounds : ∀ fuel n, n ≤ fuel →
    ∀ d ∈ natDecimalF fuel n, 48 ≤ d ∧ d ≤ 57 := by
  intro fuel
  induction fuel with
  | zero =>
    intro n h d hd
    have : n = 0 := by omega
    subst this
    simp only [natDecimalF, List.mem_singleton] at hd
    omega
  | succ f ih =>
    intro n h d hd
    unfold natDecimalF at hd
    by_cases h10 : n < 10
    · rw [if_pos h10] at hd
      simp only [List.mem_singleton] at hd
      omega
    · rw [if_neg h10] at hd
      have hlt : n / 10 < n := Nat.div_lt_self (by omega) (by omega)
      rcases List.mem_append.mp hd with hm | hm
      · exact ih (n / 10) (by omega) d hm
      · simp only [List.mem_singleton] at hm
        have : n % 10 < 10 := Nat.mod_lt _ (by omega)
        omega

theorem natDecimalF_ne_nil (fuel n : Nat) : natDecimalF fuel n ≠ [] := by
  cases fuel with
  | zero => simp [natDecimalF]
  | succ f =>
    unfold natDecimalF
    by_cases h10 : n < 10
    · rw [if_pos h10]; simp
    · rw [if_neg h10]; simp

theorem natDecimal_digitsVal (n : Nat) : digitsVal (natDecimal n) = n :=
  natDecimalF_digitsVal n n le_rfl

theorem natDecimal_bounds (n : Nat) : ∀ d ∈ natDecimal n, 48 ≤ d ∧ d ≤ 57 :=
  natDecimalF_bounds n n le_rfl

theorem natDecimal_ne_nil (n : Nat) : natDecimal n ≠ [] := natDecimalF_ne_nil n n

theorem natDecimal_no_zero (n : Nat) : (0 : Nat) ∉ natDecimal n := by
  intro hm
  have := natDecimal_bounds n 0 hm
  omega

theorem dropWhile_eq_self_of_all {l : List Nat} {p : Nat → Bool}
    (h : ∀ x ∈ l, p x = false) : l.dropWhile p = l := by
  cases l with
  | nil => rfl
  | cons a t =>
    rw [List.dropWhile_cons, if_neg (by simp [h a (by simp)])]

theorem pyInt_space_digits (ds : List Nat) (hne : ds ≠ [])
    (hd : ∀ d ∈ ds, 48 ≤ d ∧ d ≤ 57) :
    pyInt (32 :: ds) = .ok ((digitsVal ds : Nat) : Int) := by
  have hall : ((32 : Nat) :: ds).all (· < 128) = true := by
    rw [List.all_eq_true]
    intro d hdm
    rcases List.mem_cons.mp hdm with rfl | hm
    · decide
    · have := hd d hm
      simp only [decide_eq_true_eq]
      omega
  have hstrip : stripWs ((32 : Nat) :: ds) = ds := by
    unfold stripWs
    rw [List.dropWhile_cons, if_pos (by decide)]
    have h1 : List.dropWhile isWsByte ds = ds :=
      dropWhile_eq_self_of_all (fun x hx => by
        have := hd x hx
        simp only [isWsByte, Bool.or_eq_false_iff, decide_eq_false_iff_not]
        omega)
    have h2 : List.dropWhile isWsByte ds.reverse = ds.reverse :=
      dropWhile_eq_self_of_all (fun x hx => by
        have := hd x (List.mem_reverse.mp hx)
        simp only [isWsByte, Bool.or_eq_false_iff, decide_eq_false_iff_not]
        omega)
    rw [h1, h2, List.reverse_reverse]
  obtain ⟨d0, t0, rfl⟩ : ∃ d0 t0, ds = d0 :: t0 := by
    cases ds with
    | nil => exact absurd rfl hne
    | cons a t => exact ⟨a, t, rfl⟩
  have hd0 := hd d0 (by simp)
  simp only [pyInt, hstrip]
  rw [if_neg (by simp [hall])]
  rw [if_neg (show ¬ d0 = 43 by omega), if_neg (show ¬ d0 = 45 by omega)]
  rw [if_pos ?_]
  · simp
  · refine ⟨by simp, ?_⟩
    rw [List.all_eq_true]
    intro d hdm
    have := hd d hdm
    simp only [isDigitByte, Bool.and_eq_true, decide_eq_true_eq]
    omega

/-! ### Filesystem lemmas -/

theorem lookupFile_append_fresh {l : List (List String × List Nat)}
    {p : List String} {c : List Nat} (h : p ∉ l.map Prod.fst) :
    lookupFile (l ++ [(p, c)]) p = some c := by
  induction l with
  | nil => simp [lookupFile]
  | cons a t ih =>
    obtain ⟨q, d⟩ := a
    simp only [List.map_cons, List.mem_cons] at h
    push_neg at h
    rw [List.cons_append, lookupFile, if_neg (Ne.symm h.1)]
    exact ih h.2

theorem mem_of_lookupFile {l : List (List String × List Nat)}
    {p : List String} {c : List Nat} (h : lookupFile l p = some c) :
    p ∈ l.map Prod.fst := by
  induction l with
  | nil => simp [lookupFile] at h
  | cons a t ih =>
    obtain ⟨q, d⟩ := a
    simp only [lookupFile] at h
    by_cases hq : q = p
    · simp [hq]
    · rw [if_neg hq] at h
      simp [ih h]

theorem pathAncestors_length {r q : List String} (h : q ∈ pathAncestors r) :
    q.length ≤ r.length := by
  induction r generalizing q with
  | nil => simp [pathAncestors] at h
  | cons a t ih =>
    simp only [pathAncestors, List.mem_cons, List.mem_map] at h
    rcases h with rfl | ⟨q', hq', rfl⟩
    · simp
    · have := ih hq'
      simp only [List.length_cons]
      omega

theorem pathAncestors_mem_self {q : List String} (h : q ≠ []) :
    q ∈ pathAncestors q := by
  induction q with
  | nil => exact absurd rfl h
  | cons a t ih =>
    simp only [pathAncestors, List.mem_cons, List.mem_map]
    cases t with
    | nil => left; rfl
    | cons b u => right; exact ⟨b :: u, ih (by simp), rfl⟩

theorem fsMakedirs_files (fs : FS) (q : List String) :
    (fsMakedirs fs q).files = fs.files := rfl

theorem fsMakedirs_mem_self (fs : FS) {q : List String} (h : q ≠ []) :
    q ∈ (fsMakedirs fs q).dirs := by
  unfold fsMakedirs
  by_cases hq : q ∈ fs.dirs
  · exact List.mem_append_left _ hq
  · refine List.mem_append_right _ ?_
    rw [List.mem_filter]
    exact ⟨pathAncestors_mem_self h, by simp [hq]⟩

theorem fsMakedirs_mem_of_mem (fs : FS) (q : List String) {p : List String}
    (h : p ∈ fs.dirs) : p ∈ (fsMakedirs fs q).dirs :=
  List.mem_append_left _ h

theorem fsMakedirs_mem_cases (fs : FS) (q : List String) {p : List String}
    (h : p ∈ (fsMakedirs fs q).dirs) : p ∈ fs.dirs ∨ p.length ≤ q.length := by
  unfold fsMakedirs at h
  rcases List.mem_append.mp h with hm | hm
  · exact Or.inl hm
  · exact Or.inr (pathAncestors_length (List.mem_filter.mp hm).1)

theorem repo_dir_of_dir {fs : FS} {q : List String} (h : fsIsDir fs q)
    (mk : Bool) : repo_dir fs q mk = .ok (some q, fs) := by
  unfold repo_dir
  rw [if_pos (show fsExists fs q from Or.inl h), if_pos h]

theorem repo_file_of_dir {fs : FS} {p : List String}
    (h : fsIsDir fs p.dropLast) (mk : Bool) : repo_file fs p mk = .ok (some p, fs) := by
  unfold repo_file
  rw [repo_dir_of_dir h]

/-! ### Reading a stored frame -/

theorem object_read_stored (decomp : List Nat → List Nat) (fs : FS) (sha : String)
    (c tag ds b : List Nat)
    (hdir : fsIsDir fs (objectPath sha).dropLast)
    (hfile : fsLookup fs (objectPath sha) = some c)
    (hdec : decomp c = tag ++ 32 :: (ds ++ 0 :: b))
    (ht : (32 : Nat) ∉ tag)
    (hds0 : (0 : Nat) ∉ ds)
    (hdsne : ds ≠ [])
    (hdsd : ∀ d ∈ ds, 48 ≤ d ∧ d ≤ 57) :
    object_read decomp fs sha =
      if ((digitsVal ds : Nat) : Int) ≠ (b.length : Int) then
        .err (.exception ("Malformed object " ++ sha ++ ": bad length"))
      else if tag = strBytes "commit" then
        presMap (fun k => some (GitObj.commit k)) (kvlm_parse b)
      else if tag = strBytes "tree" then .ok (some (GitObj.tree b))
      else if tag = strBytes "tag" then
        presMap (fun k => some (GitObj.tag k)) (kvlm_parse b)
      else if tag = strBytes "blob" then .ok (some (GitObj.blob b))
      else
        match decodeAscii tag with
        | .ok s => .err (.exception ("Unknown type " ++ s ++ " for object " ++ sha))
        | .err e => .err e
        | .spin => .spin := by
  have hisfile : fsIsFile fs (objectPath sha) := by
    unfold fsIsFile
    exact mem_of_lookupFile hfile
  unfold object_read
  rw [repo_file_of_dir hdir]
  simp only [hfile, Option.getD_some, hdec]
  rw [if_neg (not_not_intro hisfile)]
  rw [pyFind_frame_space _ _ ht, pyFind_frame_nul tag ds b hds0]
  rw [pySlice_at_zero tag (32 :: (ds ++ 0 :: b))]
  have hmid : pySlice (tag ++ 32 :: (ds ++ 0 :: b)) (tag.length : Int)
      ((tag.length + (ds.length + 1) : Nat) : Int) = 32 :: ds := by
    have h2 : tag ++ 32 :: (ds ++ 0 :: b) = tag ++ ((32 : Nat) :: ds) ++ (0 :: b) := by
      simp
    rw [h2, show ((tag.length + (ds.length + 1) : Nat) : Int) =
      ((tag.length + ((32 : Nat) :: ds).length : Nat) : Int) from by
        simp [List.length_cons]]
    exact pySlice_mid tag (32 :: ds) (0 :: b)
  rw [hmid, pyInt_space_digits ds hdsne hdsd]
  have hlen : (tag ++ 32 :: (ds ++ 0 :: b)).length =
      tag.length + (ds.length + (b.length + 2)) := by
    simp only [List.length_append, List.length_cons]
    omega
  have hpay : pySlice (tag ++ 32 :: (ds ++ 0 :: b))
      (((tag.length + (ds.length + 1) : Nat) : Int) + 1)
      ((tag ++ 32 :: (ds ++ 0 :: b)).length : Int) = b := by
    have h2 : tag ++ 32 :: (ds ++ 0 :: b) = (tag ++ 32 :: ds ++ [0]) ++ b := by
      simp
    rw [h2, show (((tag.length + (ds.length + 1) : Nat) : Int) + 1) =
      (((tag ++ 32 :: ds ++ [0]).length : Nat) : Int) from by
        simp only [List.length_append, List.length_cons, List.length_nil]
        push_cast
        omega]
    exact pySlice_to_length (tag ++ 32 :: ds ++ [0]) b
  rw [hpay]
  have hcond : (((digitsVal ds : Nat) : Int) ≠
      ((tag ++ 32 :: (ds ++ 0 :: b)).length : Int) -
        ((tag.length + (ds.length + 1) : Nat) : Int) - 1) ↔
      (((digitsVal ds : Nat) : Int) ≠ (b.length : Int)) := by
    rw [hlen]
    push_cast
    omega
  exact if_congr hcond rfl rfl

/-! ### Writing a fresh object -/

theorem object_write_fresh (comp : List Nat → List Nat) (fs : FS) (obj : GitObj)
    (data : List Nat) (sha : String)
    (hser : obj_serialize obj = .ok data)
    (hsha : sha = hexdigest (sha1 (objFrame obj data)))
    (hd : (objectPath sha).dropLast ∉ fs.files.map Prod.fst)
    (hex : ¬ fsExists fs (objectPath sha)) :
    ∃ dirs', object_write comp obj (some fs) =
        .ok (sha, some ⟨dirs',
          fs.files ++ [(objectPath sha, comp (objFrame obj data))]⟩) ∧
      (objectPath sha).dropLast ∈ dirs' := by
  subst hsha
  unfold object_write
  simp only [hser]
  by_cases hdir : fsIsDir fs (objectPath (hexdigest (sha1 (objFrame obj data)))).dropLast
  · rw [repo_file_of_dir hdir]
    refine ⟨fs.dirs, ?_, hdir⟩
    show (if fsExists fs (objectPath (hexdigest (sha1 (objFrame obj data)))) then
        PRes.ok (hexdigest (sha1 (objFrame obj data)), some fs)
      else PRes.ok (hexdigest (sha1 (objFrame obj data)),
        some { dirs := fs.dirs, files := fs.files ++
          [(objectPath (hexdigest (sha1 (objFrame obj data))), comp (objFrame obj data))] })) = _
    rw [if_neg hex]
  · have hqex : ¬ fsExists fs (objectPath (hexdigest (sha1 (objFrame obj data)))).dropLast := by
      intro hq
      rcases hq with h | h
      · exact hdir h
      · exact hd h
    have hrd : repo_dir fs (objectPath (hexdigest (sha1 (objFrame obj data)))).dropLast true =
        .ok (some (objectPath (hexdigest (sha1 (objFrame obj data)))).dropLast,
          fsMakedirs fs (objectPath (hexdigest (sha1 (objFrame obj data)))).dropLast) := by
      unfold repo_dir
      rw [if_neg hqex, if_pos rfl]
    unfold repo_file
    rw [hrd]
    have hex' : ¬ fsExists
        (fsMakedirs fs (objectPath (hexdigest (sha1 (objFrame obj data)))).dropLast)
        (objectPath (hexdigest (sha1 (objFrame obj data)))) := by
      intro hq
      rcases hq with h | h
      · rcases fsMakedirs_mem_cases fs _ h with h2 | h2
        · exact hex (Or.inl h2)
        · have h3 : (objectPath (hexdigest (sha1 (objFrame obj data)))).length = 3 := rfl
          have h4 : (objectPath (hexdigest (sha1 (objFrame obj data)))).dropLast.length = 2 := rfl
          omega
      · exact hex (Or.inr h)
    refine ⟨(fsMakedirs fs (objectPath (hexdigest (sha1 (objFrame obj data)))).dropLast).dirs,
      ?_, fsMakedirs_mem_self fs (by simp [objectPath])⟩
    show (if fsExists (fsMakedirs fs (objectPath (hexdigest (sha1 (objFrame obj data)))).dropLast)
        (objectPath (hexdigest (sha1 (objFrame obj data)))) then
        PRes.ok (hexdigest (sha1 (objFrame obj data)),
          some (fsMakedirs fs (objectPath (hexdigest (sha1 (objFrame obj data)))).dropLast))
      else PRes.ok (hexdigest (sha1 (objFrame obj data)),
        some (FS.mk (fsMakedirs fs (objectPath (hexdigest (sha1 (objFrame obj data)))).dropLast).dirs ((fsMakedirs fs (objectPath (hexdigest (sha1 (objFrame obj data)))).dropLast).files ++ [(objectPath (hexdigest (sha1 (objFrame obj data))), comp (objFrame obj data))])))) = _
    rw [if_neg hex']
    rfl

/-- C3 (amended): for all payload bytes `b` and the `blob` and `tree`
tags (the latter modelled from the spec as an opaque payload),
constructing the record, writing it to a store with nothing at the
derived path, and reading it back yields a record whose `serialize()`
is exactly `b`.  For `commit`/`tag` the pipeline fails on non-KVLM
payloads and re-encoding is not byte-identical (see the
counterexample), so the claim holds only for the opaque tags.
Compression is abstract: any `comp`/`decomp` with
`decomp (comp x) = x`. -/
theorem object_store_roundtrip_blob_tree
    (comp decomp : List Nat → List Nat) (hcd : ∀ x, decomp (comp x) = x)
    (fmt b : List Nat) (fs : FS)
    (hfmt : fmt = strBytes "blob" ∨ fmt = strBytes "tree")
    (hd : (objectPath (hexdigest (sha1 (fmt ++ [32] ++ natDecimal b.length ++ [0] ++ b)))).dropLast
      ∉ fs.files.map Prod.fst)
    (hex : ¬ fsExists fs
      (objectPath (hexdigest (sha1 (fmt ++ [32] ++ natDecimal b.length ++ [0] ++ b))))) :
    ∃ sha fs', object_hash fmt b comp (some fs) = .ok (sha, some fs') ∧
      ∃ obj, object_read decomp fs' sha = .ok (some obj) ∧ obj_serialize obj = .ok b := by
  rcases hfmt with rfl | rfl
  · -- blob
    have hframe : objFrame (GitObj.blob b) b =
        strBytes "blob" ++ [32] ++ natDecimal b.length ++ [0] ++ b := rfl
    obtain ⟨dirs', hw, hdir'⟩ := object_write_fresh comp fs (GitObj.blob b) b
      (hexdigest (sha1 (strBytes "blob" ++ [32] ++ natDecimal b.length ++ [0] ++ b)))
      rfl (by rw [hframe]) hd hex
    have hh : object_hash (strBytes "blob") b comp (some fs) =
        object_write comp (GitObj.blob b) (some fs) := by
      unfold object_hash
      rw [if_neg (by decide), if_neg (by decide), if_neg (by decide), if_pos rfl]
    refine ⟨_, _, by rw [hh, hw], GitObj.blob b, ?_, rfl⟩
    have hfile : fsLookup
        ⟨dirs', fs.files ++
          [(objectPath (hexdigest (sha1 (strBytes "blob" ++ [32] ++ natDecimal b.length ++ [0] ++ b))),
            comp (objFrame (GitObj.blob b) b))]⟩
        (objectPath (hexdigest (sha1 (strBytes "blob" ++ [32] ++ natDecimal b.length ++ [0] ++ b)))) =
        some (comp (objFrame (GitObj.blob b) b)) := by
      unfold fsLookup
      exact lookupFile_append_fresh (fun hm => hex (Or.inr hm))
    have hdec2 : decomp (comp (objFrame (GitObj.blob b) b)) =
        strBytes "blob" ++ 32 :: (natDecimal b.length ++ 0 :: b) := by
      rw [hcd]
      simp [objFrame, obj_fmt]
    rw [object_read_stored decomp
      ⟨dirs', fs.files ++
        [(objectPath (hexdigest (sha1 (strBytes "blob" ++ [32] ++ natDecimal b.length ++ [0] ++ b))),
          comp (objFrame (GitObj.blob b) b))]⟩
      (hexdigest (sha1 (strBytes "blob" ++ [32] ++ natDecimal b.length ++ [0] ++ b)))
      (comp (objFrame (GitObj.blob b) b)) (strBytes "blob") (natDecimal b.length) b
      hdir' hfile hdec2 (by decide) (natDecimal_no_zero _) (natDecimal_ne_nil _)
      (natDecimal_bounds _)]
    rw [if_neg (by simp [natDecimal_digitsVal]), if_neg (by decide), if_neg (by decide),
      if_neg (by decide), if_pos rfl]
  · -- tree
    have hframe : objFrame (GitObj.tree b) b =
        strBytes "tree" ++ [32] ++ natDecimal b.length ++ [0] ++ b := rfl
    obtain ⟨dirs', hw, hdir'⟩ := object_write_fresh comp fs (GitObj.tree b) b
      (hexdigest (sha1 (strBytes "tree" ++ [32] ++ natDecimal b.length ++ [0] ++ b)))
      rfl (by rw [hframe]) hd hex
    have hh : object_hash (strBytes "tree") b comp (some fs) =
        object_write comp (GitObj.tree b) (some fs) := by
      unfold object_hash
      rw [if_neg (by decide), if_pos rfl]
    refine ⟨_, _, by rw [hh, hw], GitObj.tree b, ?_, rfl⟩
    have hfile : fsLookup
        ⟨dirs', fs.files ++
          [(objectPath (hexdigest (sha1 (strBytes "tree" ++ [32] ++ natDecimal b.length ++ [0] ++ b))),
            comp (objFrame (GitObj.tree b) b))]⟩
        (objectPath (hexdigest (sha1 (strBytes "tree" ++ [32] ++ natDecimal b.length ++ [0] ++ b)))) =
        some (comp (objFrame (GitObj.tree b) b)) := by
      unfold fsLookup
      exact lookupFile_append_fresh (fun hm => hex (Or.inr hm))
    have hdec2 : decomp (comp (objFrame (GitObj.tree b) b)) =
        strBytes "tree" ++ 32 :: (natDecimal b.length ++ 0 :: b) := by
      rw [hcd]
      simp [objFrame, obj_fmt]
    rw [object_read_stored decomp
      ⟨dirs', fs.files ++
        [(objectPath (hexdigest (sha1 (strBytes "tree" ++ [32] ++ natDecimal b.length ++ [0] ++ b))),
          comp (objFrame (GitObj.tree b) b))]⟩
      (hexdigest (sha1 (strBytes "tree" ++ [32] ++ natDecimal b.length ++ [0] ++ b)))
      (comp (objFrame (GitObj.tree b) b)) (strBytes "tree") (natDecimal b.length) b
      hdir' hfile hdec2 (by decide) (natDecimal_no_zero _) (natDecimal_ne_nil _)
      (natDecimal_bounds _)]
    rw [if_neg (by simp [natDecimal_digitsVal]), if_neg (by decide), if_pos rfl]

/-- C6: reading a stored object whose frame declares a decimal length
`s` different from the number of payload bytes after the NUL fails
with the "Malformed object ...: bad length" exception (the spec's
`MalformedObject`), for every type tag.  That this is the sole
frame-level validation is witnessed by the success theorem for
well-formed frames (the round-trip theorem for well-formed frames). -/
theorem object_read_bad_length_malformed
    (comp decomp : List Nat → List Nat) (hcd : ∀ x, decomp (comp x) = x)
    (fs : FS) (sha : String) (tag : List Nat)
    (htag : tag = strBytes "blob" ∨ tag = strBytes "tree" ∨
      tag = strBytes "commit" ∨ tag = strBytes "tag")
    (s : Nat) (b : List Nat)
    (hdir : fsIsDir fs (objectPath sha).dropLast)
    (hfile : fsLookup fs (objectPath sha) =
      some (comp (tag ++ [32] ++ natDecimal s ++ [0] ++ b)))
    (hsz : s ≠ b.length) :
    object_read decomp fs sha =
      .err (.exception ("Malformed object " ++ sha ++ ": bad length")) := by
  have ht : (32 : Nat) ∉ tag := by
    rcases htag with rfl | rfl | rfl | rfl <;> decide
  rw [object_read_stored decomp fs sha _ tag (natDecimal s) b hdir hfile
    (by rw [hcd]; simp) ht (natDecimal_no_zero s) (natDecimal_ne_nil s)
    (natDecimal_bounds s)]
  rw [if_pos (by rw [natDecimal_digitsVal]; exact_mod_cast hsz)]

/-- C7 (amended): when the two-character prefix directory exists but no
file is stored at the address-derived path, `object_read` returns the
not-found outcome (Python `None`, the spec's `ObjectNotFound`),
surfaced to the caller; when even the prefix directory is missing, the
read instead raises `TypeError` (see the counterexample). -/
theorem object_read_absent_file_returns_none (decomp : List Nat → List Nat)
    (fs : FS) (sha : String)
    (hdir : fsIsDir fs (objectPath sha).dropLast)
    (hnf : ¬ fsIsFile fs (objectPath sha)) :
    object_read decomp fs sha = .ok none := by
  unfold object_read
  rw [repo_file_of_dir hdir]
  exact if_pos hnf

/-- C8 (amended): whenever the header scan of `kvlm_parse` reaches the
message boundary (no space before the next newline) at a position that
is not exactly a newline, the parse fails — with the bare assertion
error, which carries no byte-offset information (the same error value
arises at every offset, see the counterexample). -/
theorem kvlm_boundary_assertion_error (raw : List Nat) (lf depth start : Nat)
    (dct : Doc)
    (hb : pyFind raw 32 (start : Int) < 0 ∨
      pyFind raw 10 (start : Int) < pyFind raw 32 (start : Int))
    (hne : pyFind raw 10 (start : Int) ≠ (start : Int)) :
    kvlm_parse_rec raw lf (depth + 1) start dct = .err .assertionError := by
  unfold kvlm_parse_rec
  rw [if_pos hb, if_neg hne]

/-! ### Termination of the continuation scan on well-headed input -/

theorem pyAt_zero (s : List Nat) : pyAt s 0 = s.head? := by
  cases s <;> rfl

theorem pyFind_none_case {s : List Nat} {c : Nat} {i : Int} (hi : ¬ i < 0)
    (hf : findFrom (s.drop i.toNat) c = none) : pyFind s c i = -1 := by
  unfold pyFind
  simp only [hi, if_false]
  rw [hf]

theorem pyFind_some_case {s : List Nat} {c k : Nat} {i : Int} (hi : ¬ i < 0)
    (hf : findFrom (s.drop i.toNat) c = some k) :
    pyFind s c i = ((i.toNat + k : Nat) : Int) := by
  unfold pyFind
  simp only [hi, if_false]
  rw [hf]

theorem pyFind_found_bounds {s : List Nat} {c : Nat} {n : Nat}
    (h : 0 ≤ pyFind s c (n : Int)) :
    (n : Int) ≤ pyFind s c (n : Int) ∧ pyFind s c (n : Int) < (s.length : Int) := by
  cases hf : findFrom (s.drop n) c with
  | none =>
    rw [pyFind_none_case (by omega) (by rw [Int.toNat_natCast]; exact hf)] at h
    simp at h
  | some k =>
    have hv := pyFind_some_case (show ¬ ((n : Int) < 0) from by omega)
      (by rw [Int.toNat_natCast]; exact hf)
    rw [hv]
    have hk := findFrom_lt_length hf
    rw [List.length_drop] at hk
    simp only [Int.toNat_natCast]
    constructor
    · push_cast
      omega
    · push_cast
      omega

theorem find_value_end_step (raw : List Nat) (f : Nat) (e : Int) :
    find_value_end raw (f + 1) e =
      match pyAt raw (pyFind raw 10 (e + 1) + 1) with
      | none => .err .indexError
      | some c => if c ≠ 32 then .ok (pyFind raw 10 (e + 1))
          else find_value_end raw f (pyFind raw 10 (e + 1)) := rfl

theorem find_value_end_no_spin (raw : List Nat) (h0 : raw.head? ≠ some 32) :
    ∀ fuel : Nat, ∀ e : Int, -1 ≤ e → e < (raw.length : Int) →
    (raw.length : Int) + 1 - e ≤ fuel → find_value_end raw fuel e ≠ .spin := by
  intro fuel
  induction fuel with
  | zero =>
    intro e h1 h2 h3
    omega
  | succ f ih =>
    intro e h1 h2 h3
    rw [find_value_end_step raw f e]
    split
    · exact fun hcontr => PRes.noConfusion hcontr
    rename_i c heq
    split
    · exact fun hcontr => PRes.noConfusion hcontr
    rename_i hc
    push_neg at hc
    have he1 : ¬ ((e + 1 : Int) < 0) := by omega
    cases hf : findFrom (raw.drop (e + 1).toNat) 10 with
    | none =>
      rw [pyFind_none_case he1 hf] at heq
      rw [show ((-1 : Int) + 1) = (0 : Int) from by norm_num, pyAt_zero] at heq
      rw [heq, hc] at h0
      exact absurd rfl h0
    | some k =>
      have hv := pyFind_some_case he1 hf
      rw [hv]
      have hk := findFrom_lt_length hf
      rw [List.length_drop] at hk
      have he2n : (((e + 1).toNat + k : Nat) : Int) = e + 1 + k := by
        push_cast
        rw [Int.toNat_of_nonneg (show (0 : Int) ≤ e + 1 from by omega)]
      refine ih (((e + 1).toNat + k : Nat) : Int) (by omega) ?_ ?_
      · rw [he2n]
        have : (e + 1).toNat + k < raw.length := by
          have : (e + 1).toNat ≤ raw.length := by omega
          omega
        push_cast at *
        omega
      · rw [he2n]
        omega

theorem kvlm_parse_rec_no_spin (raw : List Nat) (h0 : raw.head? ≠ some 32) :
    ∀ depth lf start dct, raw.length + 2 ≤ lf →
    kvlm_parse_rec raw lf depth start dct ≠ .spin := by
  intro depth
  induction depth with
  | zero =>
    intro lf start dct hlf
    simp [kvlm_parse_rec]
  | succ d ih =>
    intro lf start dct hlf
    unfold kvlm_parse_rec
    by_cases hb : pyFind raw 32 (start : Int) < 0 ∨
        pyFind raw 10 (start : Int) < pyFind raw 32 (start : Int)
    · rw [if_pos hb]
      by_cases hnl : pyFind raw 10 (start : Int) = (start : Int)
      · rw [if_pos hnl]
        exact fun hcontr => PRes.noConfusion hcontr
      · rw [if_neg hnl]
        exact fun hcontr => PRes.noConfusion hcontr
    · rw [if_neg hb]
      push_neg at hb
      have hspc : 0 ≤ pyFind raw 32 (start : Int) := hb.1
      have hbounds := pyFind_found_bounds hspc
      have hstart : (start : Int) < (raw.length : Int) := by omega
      cases hfv : find_value_end raw lf (start : Int) with
      | spin =>
        exact absurd hfv (find_value_end_no_spin raw h0 lf (start : Int)
          (by omega) hstart (by omega))
      | err e => exact fun hcontr => PRes.noConfusion hcontr
      | ok endv => exact ih lf _ _ hlf

/-- C9 (amended): `kvlm_parse` terminates — returning a document or
failing synchronously (assertion, index, or recursion-limit error) —
on every input whose first byte is not a space; the inner scan then
never exhausts its fuel.  Inputs beginning with a space can drive the
`while True` scan into a genuine infinite loop (see the
counterexample). -/
theorem kvlm_parse_no_spin_without_leading_space (raw : List Nat)
    (h0 : raw.head? ≠ some 32) : kvlm_parse raw ≠ .spin :=
  kvlm_parse_rec_no_spin raw h0 1000 (raw.length + 2) 0 [] le_rfl

/-! ### Address shape lemmas -/

theorem sha1_length (m : List Nat) : (sha1 m).length = 20 := by
  unfold sha1
  cases hx : sha1Blocks ((sha1Pad m).length + 1)
      (1732584193, 4023233417, 2562383102, 271733878, 3285377520) (sha1Pad m) with
  | mk h0 rest =>
    obtain ⟨h1, h2, h3, h4⟩ := rest
    simp [be32]

theorem hexFoldr_length (bs : List Nat) :
    (bs.foldr (fun b acc => hexChar (b / 16 % 16) :: hexChar (b % 16) :: acc) []).length =
      2 * bs.length := by
  induction bs with
  | nil => rfl
  | cons a t ih =>
    simp only [List.foldr_cons, List.length_cons, ih]
    omega

theorem hexdigest_length (bs : List Nat) : (hexdigest bs).length = 2 * bs.length :=
  hexFoldr_length bs

theorem hexChar_mem (i : Nat) : hexChar i ∈ hexChars := by
  unfold hexChar
  by_cases h : i < 16
  · rw [List.getD_eq_getElem?_getD,
      List.getElem?_eq_getElem (show i < hexChars.length from h)]
    simp only [Option.getD_some]
    exact List.getElem_mem (show i < hexChars.length from h)
  · rw [List.getD_eq_getElem?_getD,
      List.getElem?_eq_none (show hexChars.length ≤ i by
        rw [show hexChars.length = 16 from rfl]; omega)]
    decide

theorem hexdigest_chars (bs : List Nat) :
    ∀ ch ∈ (hexdigest bs).data, ch ∈ hexChars := by
  show ∀ ch ∈ bs.foldr (fun b acc => hexChar (b / 16 % 16) :: hexChar (b % 16) :: acc) [], _
  induction bs with
  | nil => intro ch h; simp at h
  | cons a t ih =>
    intro ch h
    simp only [List.foldr_cons, List.mem_cons] at h
    rcases h with rfl | rfl | h
    · exact hexChar_mem _
    · exact hexChar_mem _
    · exact ih ch h

/-! ### The effect of object_write on the store -/

theorem object_write_some_shape (comp : List Nat → List Nat) (obj : GitObj)
    (data : List Nat) (fs : FS) (hser : obj_serialize obj = .ok data) :
    object_write comp obj (some fs) =
      .err (.exception ("Not a directory " ++ String.intercalate "/"
        (objectPath (hexdigest (sha1 (objFrame obj data)))).dropLast)) ∨
    ∃ fs1 : FS, fs1.files = fs.files ∧
      object_write comp obj (some fs) =
        (if fsExists fs1 (objectPath (hexdigest (sha1 (objFrame obj data)))) then
          .ok (hexdigest (sha1 (objFrame obj data)), some fs1)
        else .ok (hexdigest (sha1 (objFrame obj data)),
          some ⟨fs1.dirs, fs1.files ++
            [(objectPath (hexdigest (sha1 (objFrame obj data))),
              comp (objFrame obj data))]⟩)) ∧
      (fsExists fs (objectPath (hexdigest (sha1 (objFrame obj data)))) →
        fsExists fs1 (objectPath (hexdigest (sha1 (objFrame obj data))))) := by
  unfold object_write
  simp only [hser]
  by_cases hdir : fsIsDir fs (objectPath (hexdigest (sha1 (objFrame obj data)))).dropLast
  · right
    refine ⟨fs, rfl, ?_, fun h => h⟩
    rw [repo_file_of_dir hdir]
  · by_cases hfileq : fsIsFile fs (objectPath (hexdigest (sha1 (objFrame obj data)))).dropLast
    · left
      have hrd : repo_dir fs (objectPath (hexdigest (sha1 (objFrame obj data)))).dropLast true =
          .err (.exception ("Not a directory " ++ String.intercalate "/"
            (objectPath (hexdigest (sha1 (objFrame obj data)))).dropLast)) := by
        unfold repo_dir
        rw [if_pos (show fsExists fs (objectPath (hexdigest (sha1 (objFrame obj data)))).dropLast
          from Or.inr hfileq), if_neg hdir]
      unfold repo_file
      rw [hrd]
    · right
      have hqex : ¬ fsExists fs (objectPath (hexdigest (sha1 (objFrame obj data)))).dropLast := by
        intro h
        rcases h with h | h
        · exact hdir h
        · exact hfileq h
      have hrd : repo_dir fs (objectPath (hexdigest (sha1 (objFrame obj data)))).dropLast true =
          .ok (some (objectPath (hexdigest (sha1 (objFrame obj data)))).dropLast,
            fsMakedirs fs (objectPath (hexdigest (sha1 (objFrame obj data)))).dropLast) := by
        unfold repo_dir
        rw [if_neg hqex, if_pos rfl]
      refine ⟨fsMakedirs fs (objectPath (hexdigest (sha1 (objFrame obj data)))).dropLast,
        rfl, ?_, ?_⟩
      · unfold repo_file
        rw [hrd]
      · intro h
        rcases h with h | h
        · exact Or.inl (fsMakedirs_mem_of_mem fs _ h)
        · exact Or.inr h

/-- C10: with `repo=None`, `object_write` returns the 40-character
lowercase-hex SHA-1 address of the frame and touches no filesystem at
all; and when a repository is supplied, a file is created only when
nothing already exists at the address-derived path (otherwise the file
list is unchanged — at most directories are created). -/
theorem object_write_effects :
    (∀ (comp : List Nat → List Nat) (obj : GitObj) (data : List Nat),
      obj_serialize obj = .ok data →
      object_write comp obj none = .ok (hexdigest (sha1 (objFrame obj data)), none) ∧
      (hexdigest (sha1 (objFrame obj data))).length = 40 ∧
      ∀ ch ∈ (hexdigest (sha1 (objFrame obj data))).data, ch ∈ hexChars) ∧
    (∀ (comp : List Nat → List Nat) (fs : FS) (obj : GitObj) (data : List Nat)
      (sha : String) (fs' : FS),
      obj_serialize obj = .ok data →
      object_write comp obj (some fs) = .ok (sha, some fs') →
      fs'.files = fs.files ∨
        (¬ fsExists fs (objectPath sha) ∧
          fs'.files = fs.files ++ [(objectPath sha, comp (objFrame obj data))])) := by
  constructor
  · intro comp obj data hser
    refine ⟨?_, ?_, hexdigest_chars _⟩
    · unfold object_write
      simp only [hser]
    · rw [hexdigest_length, sha1_length]
  · intro comp fs obj data sha fs' hser hw
    rcases object_write_some_shape comp obj data fs hser with herr | ⟨fs1, hfiles, heq, hmono⟩
    · rw [herr] at hw
      exact absurd hw (by simp)
    · rw [heq] at hw
      by_cases hex : fsExists fs1 (objectPath (hexdigest (sha1 (objFrame obj data))))
      · rw [if_pos hex] at hw
        simp only [PRes.ok.injEq, Prod.mk.injEq, Option.some.injEq] at hw
        obtain ⟨hsha, hfs⟩ := hw
        left
        rw [← hfs]
        exact hfiles
      · rw [if_neg hex] at hw
        simp only [PRes.ok.injEq, Prod.mk.injEq, Option.some.injEq] at hw
        obtain ⟨hsha, hfs⟩ := hw
        right
        constructor
        · intro hcontr
          rw [← hsha] at hcontr
          exact hex (hmono hcontr)
        · rw [← hfs, ← hsha, hfiles]

/-! ### Witnesses -/

theorem object_store_roundtrip_blob_tree_witness :
    ∃ sha fs', object_hash (strBytes "blob") [97] id (some ⟨[], []⟩) = .ok (sha, some fs') ∧
      ∃ obj, object_read id fs' sha = .ok (some obj) ∧ obj_serialize obj = .ok [97] :=
  object_store_roundtrip_blob_tree id id (fun _ => rfl) (strBytes "blob") [97] ⟨[], []⟩
    (Or.inl rfl) (by simp) (by simp [fsExists, fsIsDir, fsIsFile])

theorem object_read_bad_length_malformed_witness :
    object_read id
      ⟨[["objects", "00"]],
        [(objectPath "0000000000000000000000000000000000000000",
          id (strBytes "blob" ++ [32] ++ natDecimal 12 ++ [0] ++ strBytes "hello world"))]⟩
      "0000000000000000000000000000000000000000" =
      .err (.exception ("Malformed object " ++ "0000000000000000000000000000000000000000" ++
        ": bad length")) :=
  object_read_bad_length_malformed id id (fun _ => rfl) _ _ (strBytes "blob")
    (Or.inl rfl) 12 (strBytes "hello world") (by decide) (by decide) (by decide)

theorem object_read_absent_file_returns_none_witness :
    object_read id ⟨[["objects", "00"]], []⟩ "0000000000000000000000000000000000000000" =
      .ok none :=
  object_read_absent_file_returns_none id ⟨[["objects", "00"]], []⟩
    "0000000000000000000000000000000000000000" (by decide) (by decide)

theorem kvlm_boundary_assertion_error_witness :
    kvlm_parse_rec (strBytes "x") 3 1000 0 [] = .err .assertionError :=
  kvlm_boundary_assertion_error (strBytes "x") 3 999 0 [] (by decide) (by decide)

theorem kvlm_parse_no_spin_witness :
    kvlm_parse (strBytes "a b\n\nm") ≠ .spin :=
  kvlm_parse_no_spin_without_leading_space (strBytes "a b\n\nm") (by decide)

theorem object_write_effects_witness :
    object_write id (GitObj.blob [97]) none =
      .ok (hexdigest (sha1 (objFrame (GitObj.blob [97]) [97])), none) ∧
    (hexdigest (sha1 (objFrame (GitObj.blob [97]) [97]))).length = 40 ∧
    ((⟨[["objects"], ["objects",
          String.mk ((hexdigest (sha1 (objFrame (GitObj.blob [97]) [97]))).toList.take 2)]],
        [(objectPath (hexdigest (sha1 (objFrame (GitObj.blob [97]) [97]))),
          id (objFrame (GitObj.blob [97]) [97]))]⟩ : FS).files = (⟨[], []⟩ : FS).files ∨
      (¬ fsExists ⟨[], []⟩ (objectPath (hexdigest (sha1 (objFrame (GitObj.blob [97]) [97])))) ∧
        (⟨[["objects"], ["objects",
            String.mk ((hexdigest (sha1 (objFrame (GitObj.blob [97]) [97]))).toList.take 2)]],
          [(objectPath (hexdigest (sha1 (objFrame (GitObj.blob [97]) [97]))),
            id (objFrame (GitObj.blob [97]) [97]))]⟩ : FS).files =
          (⟨[], []⟩ : FS).files ++
            [(objectPath (hexdigest (sha1 (objFrame (GitObj.blob [97]) [97]))),
              id (objFrame (GitObj.blob [97]) [97]))])) :=
  ⟨(object_write_effects.1 id (GitObj.blob [97]) [97] rfl).1,
   (object_write_effects.1 id (GitObj.blob [97]) [97] rfl).2.1,
   object_write_effects.2 id ⟨[], []⟩ (GitObj.blob [97]) [97]
     (hexdigest (sha1 (objFrame (GitObj.blob [97]) [97]))) _ rfl (by decide)⟩
